import Mathlib

set_option maxRecDepth 8000

/-!
Verification development for the PDF outline extractor
(src/app/extract_outline.py, class PDFOutlineExtractor).

Shallow embedding conventions:
* Python strings are modelled as `List Char` (`Str`); `len` is `List.length`.
* Python floats (glyph coordinates, font sizes, frequencies, scores) are
  modelled as exact rationals `ℚ`; `round(x, 1)` is modelled with
  round-half-to-even, matching CPython round semantics on exact values.
* Python dicts that the code builds key by key are modelled as association
  lists in insertion order; `defaultdict` access appends a default entry.
* A heading/outline dict literal is modelled as an ordered field list
  (`Entry`), so the set of keys produced at each construction site, and
  hence the keys serialized by `json.dump`, is preserved by the model.
* External library calls (pymupdf.open, doc.get_toc, doc.metadata,
  pdfplumber.open) may raise; they are modelled as `Except Unit` values
  supplied by a `DocBehavior`.  Internal operations that can raise
  (division by zero in the title scorer) are modelled in the `Except`
  monad; `try/except` blocks are modelled by matching on the `Except`.
* `Char.isWhitespace`/`Char.isDigit`/`Char.toLower` stand in for the
  Python whitespace/digit/case tables; they agree on ASCII, and all
  concrete inputs used below are ASCII.
-/

abbrev Str := List Char

/-- Python `str.split()` with no separator: split on runs of whitespace,
dropping empty pieces.  Auxiliary accumulator holds the current word
reversed. -/
def splitWsAux : List Char → List Char → List Str
  | [], acc => if acc.isEmpty then [] else [acc.reverse]
  | c :: cs, acc =>
    if c.isWhitespace then
      if acc.isEmpty then splitWsAux cs [] else acc.reverse :: splitWsAux cs []
    else splitWsAux cs (c :: acc)

def splitWs (s : Str) : List Str := splitWsAux s []

/-- Python `' '.join(parts)`. -/
def joinSpace : List Str → Str
  | [] => []
  | [p] => p
  | p :: q :: rest => p ++ ' ' :: joinSpace (q :: rest)

/-- Python `' '.join(text.split())`: collapse whitespace runs to single
spaces and trim both ends. -/
def wsCollapse (s : Str) : Str := joinSpace (splitWs s)

/-- Python `str.strip()`. -/
def stripStr (s : Str) : Str :=
  ((s.dropWhile Char.isWhitespace).reverse.dropWhile Char.isWhitespace).reverse

/-- Case-insensitive literal match of `pat` (given lowercase) against the
start of `s`; returns the rest of `s` on success. -/
def matchCI : Str → Str → Option Str
  | [], s => some s
  | _ :: _, [] => none
  | p :: ps, c :: cs => if c.toLower = p then matchCI ps cs else none

/-- One regex alternative of `^(Chapter|Section|Part)` (case-insensitive),
tried in the alternation order of the pattern. -/
def matchKeyword (s : Str) : Option Str :=
  match matchCI ['c', 'h', 'a', 'p', 't', 'e', 'r'] s with
  | some r => some r
  | none =>
    match matchCI ['s', 'e', 'c', 't', 'i', 'o', 'n'] s with
    | some r => some r
    | none => matchCI ['p', 'a', 'r', 't'] s

/-- Python `re.sub(r'^(Chapter|Section|Part)\s*\d*\.?\s*', '', text,
flags=re.IGNORECASE)`.  The character classes of the quantified parts are
disjoint, so greedy maximal munch realizes the regex semantics. -/
def stripOrdinal (s : Str) : Str :=
  match matchKeyword s with
  | none => s
  | some r =>
    let r1 := r.dropWhile Char.isWhitespace
    let r2 := r1.dropWhile Char.isDigit
    let r3 := match r2 with
      | '.' :: rest => rest
      | _ => r2
    r3.dropWhile Char.isWhitespace

/-- Python `re.sub(r'\s+\d+\s*$', '', text)`: drop one trailing run of
digits together with the whitespace run before it (and any whitespace
after it); leftmost-match semantics make both runs maximal.  If the
pattern does not match, the text is unchanged. -/
def stripTrailingNum (s : Str) : Str :=
  let r := s.reverse
  let r1 := r.dropWhile Char.isWhitespace
  let r2 := r1.dropWhile Char.isDigit
  let r3 := r2.dropWhile Char.isWhitespace
  if r1.length < r2.length + 1 then s
  else if r2.length < r3.length + 1 then s
  else r3.reverse

/-- The three `__init__` attributes of `PDFOutlineExtractor`. -/
structure Config where
  font_size_threshold : ℚ
  min_heading_chars : ℕ
  max_heading_chars : ℕ
deriving DecidableEq

/-- Defaults set in `PDFOutlineExtractor.__init__`. -/
def defaultConfig : Config := ⟨2, 3, 200⟩

/-- `PDFOutlineExtractor._clean_heading_text`.  Note the source checks the
length bounds on the text after the whitespace collapse and ordinal
strip, before the trailing page number strip. -/
def clean_heading_text (cfg : Config) (s : Str) : Str :=
  let t := stripOrdinal (wsCollapse s)
  if cfg.min_heading_chars ≤ t.length ∧ t.length ≤ cfg.max_heading_chars then
    stripTrailingNum t
  else []

/-- Case-insensitive test that `s` ends with `suf` (given lowercase). -/
def endsWithCI (suf : Str) (s : Str) : Bool :=
  decide ((s.map Char.toLower).drop (s.length - suf.length) = suf) &&
    decide (suf.length ≤ s.length)

/-- Python `re.sub(r'\.(pdf|docx?)$', '', t, flags=re.IGNORECASE)`: the
three possible suffixes are mutually exclusive, so suffix tests realize
the regex. -/
def stripExtSuffix (s : Str) : Str :=
  if endsWithCI ['.', 'p', 'd', 'f'] s then s.take (s.length - 4)
  else if endsWithCI ['.', 'd', 'o', 'c', 'x'] s then s.take (s.length - 5)
  else if endsWithCI ['.', 'd', 'o', 'c'] s then s.take (s.length - 4)
  else s

/-- `PDFOutlineExtractor._clean_title_text`. -/
def clean_title_text (s : Str) : Str :=
  (stripExtSuffix (wsCollapse s)).take 200

/-- A positioned character as produced by `pdfplumber` (`page.chars`
entries): the fields the extractor reads. -/
structure Glyph where
  text : Str
  x0 : ℚ
  x1 : ℚ
  top : ℚ
  size : ℚ
  fontname : Str
deriving DecidableEq

/-- A `pdfplumber` page: its glyphs and its dimensions. -/
structure Page where
  chars : List Glyph
  height : ℚ
  width : ℚ
deriving DecidableEq

/-- CPython `round` rounds exact halves to the even neighbour. -/
def roundHalfEven (x : ℚ) : ℤ :=
  let f := ⌊x⌋
  if x - f < 1/2 then f
  else if 1/2 < x - f then f + 1
  else if f % 2 = 0 then f else f + 1

/-- Python `round(x, 1)`. -/
def round1 (x : ℚ) : ℚ := (roundHalfEven (x * 10) : ℚ) / 10

/-- True if `pat` occurs at the start of `s`. -/
def startsWithSeq (pat : Str) (s : Str) : Bool :=
  decide (s.take pat.length = pat)

/-- Python `pat in s` substring test. -/
def containsSeq (pat : Str) : Str → Bool
  | [] => pat.isEmpty
  | c :: tl => startsWithSeq pat (c :: tl) || containsSeq pat tl

/-- Python `'bold' in fontname.lower()`. -/
def isBoldFont (fontname : Str) : Bool :=
  containsSeq ['b', 'o', 'l', 'd'] (fontname.map Char.toLower)

/-- One per-size record of `_analyze_font_statistics`; `frequency` is
filled in by the final pass (the `defaultdict` default leaves it 0). -/
structure FontStat where
  count : ℕ
  is_bold : Bool
  sample : Str
  positions : List ℚ
  frequency : ℚ
deriving DecidableEq

def FontStat.init : FontStat := ⟨0, false, [], [], 0⟩

/-- The `stats` dict: keyed by rounded size, in insertion order. -/
abbrev Stats := List (ℚ × FontStat)

/-- `defaultdict` update: modify the entry at `k` in place, materializing
the default at the end of the dict when the key is new. -/
def statsUpdate (k : ℚ) (f : FontStat → FontStat) : Stats → Stats
  | [] => [(k, f FontStat.init)]
  | (k', v) :: rest =>
    if k' = k then (k', f v) :: rest else (k', v) :: statsUpdate k f rest

/-- The per-character body of the `_analyze_font_statistics` loop. -/
def processChar (st : Stats) (c : Glyph) : Stats :=
  statsUpdate (round1 c.size) (fun v =>
    { count := v.count + 1
      is_bold := v.is_bold || isBoldFont c.fontname
      sample := if v.sample.length < 50 then v.sample ++ c.text else v.sample
      positions := v.positions ++ [c.top]
      frequency := v.frequency }) st

/-- The double loop of `_analyze_font_statistics`, accumulating the
stats dict and the running `total`. -/
def statsRaw (pages : List Page) : Stats × ℕ :=
  pages.foldl
    (fun acc p => p.chars.foldl (fun a c => (processChar a.1 c, a.2 + 1)) acc)
    ([], 0)

/-- `PDFOutlineExtractor._analyze_font_statistics` (the pdf argument is
abstracted to its page list). -/
def analyze_font_statistics (pages : List Page) : Stats :=
  let st := statsRaw pages
  st.1.map fun p =>
    (p.1, { p.2 with
            frequency := if st.2 ≠ 0 then (p.2.count : ℚ) / (st.2 : ℚ) else 0 })

def total_glyphs (pages : List Page) : ℕ := (statsRaw pages).2

/-- Python `max(xs, key=f)` over `acc :: xs`: the first element attaining
the maximum key (only a strictly greater key replaces the current one). -/
def pyMaxKeyBy (f : α → ℚ) : α → List α → α
  | acc, [] => acc
  | acc, x :: xs => pyMaxKeyBy f (if f acc < f x then x else acc) xs

/-- `stats[s]['frequency']` (the key is always present in the source). -/
def statFreq (stats : Stats) (s : ℚ) : ℚ :=
  match stats.lookup s with
  | some st => st.frequency
  | none => 0

/-- `max(stats, key=lambda s: stats[s]['frequency'])`. -/
def body_size (stats : Stats) : ℚ :=
  match stats.map Prod.fst with
  | [] => 0
  | k :: ks => pyMaxKeyBy (statFreq stats) k ks

/-- `sorted(stats, reverse=True)` over the dict keys. -/
def sortDesc (l : List ℚ) : List ℚ := List.insertionSort (· ≥ ·) l

/-- `f"H{level}"` for the 1-based classifier level. -/
def hLabel (n : ℕ) : Str := 'H' :: Nat.toDigits 10 n

/-- The assignment loop of `_identify_heading_fonts`: walk the candidate
sizes (already sorted descending) with the running `level` counter. -/
def assignLoop (cfg : Config) (stats : Stats) (body : ℚ) :
    List ℚ → ℕ → List (ℚ × Str)
  | [], _ => []
  | s :: rest, level =>
    if body + cfg.font_size_threshold < s ∧
        (0.001 : ℚ) < statFreq stats s ∧ statFreq stats s < (0.1 : ℚ) ∧
        level ≤ 3 then
      (s, hLabel level) :: assignLoop cfg stats body rest (level + 1)
    else assignLoop cfg stats body rest level

/-- `PDFOutlineExtractor._identify_heading_fonts`. -/
def identify_heading_fonts (cfg : Config) (stats : Stats) : List (ℚ × Str) :=
  match stats.map Prod.fst with
  | [] => []
  | k :: ks =>
    assignLoop cfg stats (pyMaxKeyBy (statFreq stats) k ks) (sortDesc (k :: ks)) 1

/-- The sort key `lambda c: (c['top'], c['x0'])` of `_group_by_line`. -/
def glyphLE (c d : Glyph) : Prop :=
  c.top < d.top ∨ (c.top = d.top ∧ c.x0 ≤ d.x0)

instance : DecidableRel glyphLE := fun c d => by
  unfold glyphLE; infer_instance

def sortChars (chars : List Glyph) : List Glyph :=
  List.insertionSort glyphLE chars

/-- The grouping walk of `_group_by_line`: `current` is the open line,
`y` its anchor vertical position (the `top` of the glyph that opened
it). -/
def groupLoop : List Glyph → List Glyph → ℚ → List (List Glyph)
  | [], current, _ => [current]
  | c :: cs, current, y =>
    if |c.top - y| < 5 then groupLoop cs (current ++ [c]) y
    else current :: groupLoop cs [c] c.top

/-- `PDFOutlineExtractor._group_by_line`. -/
def group_by_line (chars : List Glyph) : List (List Glyph) :=
  match sortChars chars with
  | [] => []
  | c :: cs => groupLoop cs [c] c.top

/-- `''.join(c['text'] for c in line).strip()`. -/
def lineText (line : List Glyph) : Str :=
  stripStr (line.map (fun c => c.text)).flatten

/-- Distinct values of `l` in first-seen order: the iteration order of
`Counter(l)`. -/
def firstSeen (l : List ℚ) : List ℚ :=
  l.foldl (fun acc x => if x ∈ acc then acc else acc ++ [x]) []

/-- `Counter(sizes).most_common(1)[0][0]`: the first-seen value of
maximal multiplicity (`most_common` sorts by count, stably, descending).
The empty case cannot occur in the source (lines are non-empty). -/
def primarySize (sizes : List ℚ) : ℚ :=
  match firstSeen sizes with
  | [] => 0
  | k :: ks => pyMaxKeyBy (fun s => ((sizes.count s : ℕ) : ℚ)) k ks

/-- `min(c['top'] for c in line)` (0 on the impossible empty line). -/
def minTop : List Glyph → ℚ
  | [] => 0
  | g :: gs => gs.foldl (fun a c => min a c.top) g.top

/-- `min(c['x0'] for c in line)`. -/
def minX0 : List Glyph → ℚ
  | [] => 0
  | g :: gs => gs.foldl (fun a c => min a c.x0) g.x0

/-- `max(c['x1'] for c in line)`. -/
def maxX1 : List Glyph → ℚ
  | [] => 0
  | g :: gs => gs.foldl (fun a c => max a c.x1) g.x1

/-- Keys of the outline dicts built by the extractor; stand for the
Python string keys of the same names. -/
inductive FKey where
  | level | text | page | y_position | font_size
deriving DecidableEq

/-- JSON-serializable values appearing in those dicts. -/
inductive JVal where
  | str (s : Str)
  | int (n : ℤ)
  | rat (q : ℚ)
deriving DecidableEq

/-- An outline dict, as an ordered field list: exactly the keys written
at the construction site, in source order.  `json.dump` serializes these
keys as they stand. -/
abbrev Entry := List (FKey × JVal)

def entryKeys (e : Entry) : List FKey := e.map Prod.fst

/-- `PDFOutlineExtractor._extract_page_headings` (the page argument is
abstracted to its glyph list via `page.chars`). -/
def extract_page_headings (cfg : Config) (heading_fonts : List (ℚ × Str))
    (page : Page) (page_num : ℕ) : List Entry :=
  (group_by_line page.chars).filterMap fun line =>
    let text := lineText line
    if cfg.min_heading_chars ≤ text.length ∧
        text.length ≤ cfg.max_heading_chars then
      let primary := primarySize (line.map (fun c => round1 c.size))
      match heading_fonts.lookup primary with
      | some lbl =>
        some [(FKey.level, JVal.str lbl),
              (FKey.text, JVal.str (clean_heading_text cfg text)),
              (FKey.page, JVal.int (page_num : ℤ)),
              (FKey.y_position, JVal.rat (minTop line)),
              (FKey.font_size, JVal.rat primary)]
      | none => none
    else none

/-- Division that raises `ZeroDivisionError` on a zero divisor, as in
Python. -/
def safeDiv (a b : ℚ) : Except Unit ℚ :=
  if b = 0 then .error () else .ok (a / b)

/-- The candidate loop of `_extract_title_from_page`, in the `Except`
monad: each candidate computes three divisions that can raise. -/
def buildCandidates (cfg : Config) (h w : ℚ) :
    List (List Glyph) → Except Unit (List (Str × ℚ))
  | [] => .ok []
  | line :: rest => do
    let text := lineText line
    if cfg.min_heading_chars ≤ text.length ∧
        text.length ≤ cfg.max_heading_chars then
      let size ← safeDiv ((line.map (fun c => c.size)).sum) (line.length : ℚ)
      let t2 ← safeDiv (h - minTop line) h
      let t3 ← safeDiv |(minX0 line + maxX1 line) / 2 - w / 2| (w / 2)
      let cs ← buildCandidates cfg h w rest
      .ok ((text, size / 12 * (4/10 : ℚ) + t2 * (3/10 : ℚ) +
             (1 - t3) * (3/10 : ℚ)) :: cs)
    else buildCandidates cfg h w rest

/-- The `try` body of `_extract_title_from_page`:
`max(candidates, key=lambda x: x[1])[0]` cleaned, or the empty string. -/
def titleFromPageExc (cfg : Config) (page : Page) : Except Unit Str := do
  let cands ← buildCandidates cfg page.height page.width
    ((group_by_line page.chars).take 10)
  .ok (match cands with
       | [] => []
       | c :: cs => clean_title_text (pyMaxKeyBy Prod.snd c cs).1)

/-- `PDFOutlineExtractor._extract_title_from_page`, with its local
`except` clause degrading failure to the empty string. -/
def extract_title_from_page (cfg : Config) (page : Page) : Str :=
  match titleFromPageExc cfg page with
  | .ok s => s
  | .error _ => []

/-- One `doc.get_toc()` entry `(level, text, page)`. -/
abbrev TocEntry := ℤ × Str × ℤ

/-- `f"H{level}"` for a toc level. -/
def hLabelInt (n : ℤ) : Str := 'H' :: (toString n).data

/-- The dict built for one retained toc entry. -/
def tocEntryJson (cfg : Config) (level : ℤ) (text : Str) (page : ℤ) : Entry :=
  [(FKey.level, JVal.str (hLabelInt level)),
   (FKey.text, JVal.str (clean_heading_text cfg text)),
   (FKey.page, JVal.int page)]

/-- The list comprehension of `_extract_pymupdf_outline`: keep entries
with `level <= 3` and truthy (non-empty) cleaned text. -/
def pymupdf_entries (cfg : Config) (toc : List TocEntry) : List Entry :=
  toc.filterMap fun e =>
    if e.1 ≤ 3 ∧ clean_heading_text cfg e.2.1 ≠ [] then
      some (tocEntryJson cfg e.1 e.2.1 e.2.2)
    else none

/-- What the pymupdf document handle exposes; each access can raise. -/
structure MuDoc where
  toc : Except Unit (List TocEntry)
  metaTitle : Except Unit Str

/-- The external behaviour of one pdf path: opening it with pymupdf and
with pdfplumber.  Both opens of the same path behave identically. -/
structure DocBehavior where
  openMu : Except Unit MuDoc
  plumber : Except Unit (List Page)

/-- The result dict `{"title": ..., "outline": [...]}`. -/
structure TitleOutline where
  title : Str
  outline : List Entry
deriving DecidableEq

/-- `PDFOutlineExtractor._extract_pymupdf_outline`: any raise inside the
`try` (open, get_toc, metadata access) degrades to the empty result. -/
def extract_pymupdf_outline (cfg : Config) (beh : DocBehavior) : TitleOutline :=
  match beh.openMu with
  | .error _ => ⟨[], []⟩
  | .ok d =>
    match d.toc with
    | .error _ => ⟨[], []⟩
    | .ok toc =>
      match d.metaTitle with
      | .error _ => ⟨[], []⟩
      | .ok mt => ⟨clean_title_text mt, pymupdf_entries cfg toc⟩

/-- `x["page"]` of the sort key of `_extract_font_based_outline`. -/
def entryPage (e : Entry) : ℤ :=
  match e.lookup FKey.page with
  | some (JVal.int n) => n
  | _ => 0

/-- `x["y_position"]` of that sort key. -/
def entryY (e : Entry) : ℚ :=
  match e.lookup FKey.y_position with
  | some (JVal.rat q) => q
  | _ => 0

/-- Lexicographic comparison on `(x["page"], x["y_position"])`. -/
def entryLE (e f : Entry) : Prop :=
  entryPage e < entryPage f ∨ (entryPage e = entryPage f ∧ entryY e ≤ entryY f)

instance : DecidableRel entryLE := fun e f => by
  unfold entryLE; infer_instance

/-- `outline.sort(key=lambda x: (x["page"], x["y_position"]))`. -/
def sortOutline (l : List Entry) : List Entry := List.insertionSort entryLE l

/-- `PDFOutlineExtractor._extract_font_based_outline`: the only external
call inside the `try` is `pdfplumber.open`; its failure degrades to the
empty result. -/
def extract_font_based_outline (cfg : Config) (beh : DocBehavior) :
    TitleOutline :=
  match beh.plumber with
  | .error _ => ⟨[], []⟩
  | .ok pages =>
    let stats := analyze_font_statistics pages
    let hf := identify_heading_fonts cfg stats
    let outline :=
      (pages.enum.map (fun p => extract_page_headings cfg hf p.2 (p.1 + 1))).flatten
    let title := match pages with
      | [] => []
      | p :: _ => extract_title_from_page cfg p
    ⟨title, sortOutline outline⟩

/-- `PDFOutlineExtractor._extract_title`: metadata title first, then the
scored first page; any raise degrades to the empty string. -/
def extract_title (cfg : Config) (beh : DocBehavior) : Str :=
  match beh.openMu with
  | .error _ => []
  | .ok d =>
    match d.metaTitle with
    | .error _ => []
    | .ok t =>
      if t ≠ [] then clean_title_text t
      else
        match beh.plumber with
        | .error _ => []
        | .ok pages =>
          match pages with
          | [] => []
          | p :: _ => extract_title_from_page cfg p

/-- The `try` body of `PDFOutlineExtractor.extract_outline`, in the
`Except` monad: the three stage calls it makes are themselves guarded by
their own `try/except`, so the body never actually raises. -/
def extractOutlineExc (cfg : Config) (beh : DocBehavior) :
    Except Unit TitleOutline := do
  let o1 := extract_pymupdf_outline cfg beh
  let o2 := if o1.outline.isEmpty then extract_font_based_outline cfg beh else o1
  let o3 := if o2.title.isEmpty then { o2 with title := extract_title cfg beh }
            else o2
  pure o3

/-- `PDFOutlineExtractor.extract_outline` with its outer `except`
returning the empty result. -/
def extract_outline (cfg : Config) (beh : DocBehavior) : TitleOutline :=
  match extractOutlineExc cfg beh with
  | .ok r => r
  | .error _ => ⟨[], []⟩

/-- Candidate list as described by claim C9: each of the first-page lines
passing the length-bound filter, scored with the claim formula
`0.4*(avg_size/12) + 0.3*((H-y)/H) + 0.3*(1 - |x_center - W/2|/(W/2))`,
written with total (Lean) division. -/
def specCandidates (cfg : Config) (h w : ℚ) (lines : List (List Glyph)) :
    List (Str × ℚ) :=
  lines.filterMap fun line =>
    let text := lineText line
    if cfg.min_heading_chars ≤ text.length ∧
        text.length ≤ cfg.max_heading_chars then
      some (text,
        (4/10 : ℚ) * ((line.map (fun c => c.size)).sum / (line.length : ℚ) / 12) +
        (3/10 : ℚ) * ((h - minTop line) / h) +
        (3/10 : ℚ) * (1 - |(minX0 line + maxX1 line) / 2 - w / 2| / (w / 2)))
    else none

/-- Spec-side restatement of claim C9: consider only the first 10
reconstructed lines, keep those passing the length filter, return the
cleaned text of the first candidate attaining the maximum score, the
empty string when no candidate qualifies, and the empty string when the
computation would raise (a zero page dimension with at least one
candidate). -/
def titleFromPageSpec (cfg : Config) (page : Page) : Str :=
  let cands := specCandidates cfg page.height page.width
    ((group_by_line page.chars).take 10)
  if page.height = 0 ∨ page.width = 0 then []
  else
    match cands with
    | [] => []
    | c :: cs => clean_title_text (pyMaxKeyBy Prod.snd c cs).1

/-- A glyph of the size-16 heading line of the concrete document below. -/
def hGlyph (t : Char) (x : ℚ) : Glyph := ⟨[t], x, x + 1, 0, 16, ['F']⟩

/-- A glyph of the size-10 body line of the concrete document below. -/
def bodyGlyph : Glyph := ⟨['a'], 0, 1, 100, 10, ['F']⟩

/-- A concrete page: the five glyphs `a b ␣ 1 2` at size 16 on one row
and 46 body glyphs at size 10, so size 16 has frequency 5/51 ∈
(0.001, 0.1), size 10 is the body size, and the size-16 line reads
`ab 12`, which cleans to `ab` of length 2. -/
def pageC : Page :=
  ⟨[hGlyph 'a' 0, hGlyph 'b' 1, hGlyph ' ' 2, hGlyph '1' 3, hGlyph '2' 4] ++
    List.replicate 46 bodyGlyph, 100, 100⟩

/-- A document whose pymupdf open fails and whose pdfplumber open yields
`pageC`, driving the orchestrator into the font-based stage. -/
def behC : DocBehavior := ⟨.error (), .ok [pageC]⟩

/-- A concrete statistics dict: body size 10 at frequency 0.8, and two
larger sizes 16 and 14 at qualifying frequencies. -/
def stats0 : Stats :=
  [(10, { FontStat.init with frequency := 8/10 }),
   (16, { FontStat.init with frequency := 2/100 }),
   (14, { FontStat.init with frequency := 5/100 })]

/-- A concrete toc with a level-4 entry and an entry whose text cleans to
a string shorter than the minimum bound. -/
def tocSample : List TocEntry :=
  [(1, ['I', 'n', 't', 'r', 'o'], 1),
   (2, ['B', 'a', 'c', 'k', 'g', 'r', 'o', 'u', 'n', 'd'], 2),
   (4, ['D', 'e', 'e', 'p'], 3),
   (1, ['a', 'b'], 9)]

/-- A document with an embedded outline `tocSample` and no metadata
title; the pdfplumber open fails. -/
def behT : DocBehavior := ⟨.ok ⟨.ok tocSample, .ok []⟩, .error ()⟩

/-- A document on which every external access raises. -/
def behFail1 : DocBehavior := ⟨.error (), .error ()⟩

/-- A document that opens, but whose toc and metadata accesses raise and
whose pdfplumber open raises. -/
def behFail2 : DocBehavior := ⟨.ok ⟨.error (), .error ()⟩, .error ()⟩

/-- A concrete one-page two-glyph document for witnesses. -/
def pagesW : List Page := [⟨[bodyGlyph, hGlyph 'a' 0], 100, 100⟩]

/-! Helper lemmas. -/

theorem groupLoop_flatten :
    ∀ (rest cur : List Glyph) (y : ℚ),
      (groupLoop rest cur y).flatten = cur ++ rest := by
  intro rest
  induction rest with
  | nil => intro cur y; simp [groupLoop]
  | cons c cs ih =>
    intro cur y
    by_cases h : |c.top - y| < 5
    · simp [groupLoop, h, ih]
    · simp [groupLoop, h, ih]

theorem groupLoop_ne_nil :
    ∀ (rest cur : List Glyph) (y : ℚ), cur ≠ [] →
      ∀ l ∈ groupLoop rest cur y, l ≠ [] := by
  intro rest
  induction rest with
  | nil => intro cur y hc l hl; simp [groupLoop] at hl; simpa [hl]
  | cons c cs ih =>
    intro cur y hc l hl
    by_cases h : |c.top - y| < 5
    · exact ih (cur ++ [c]) y (by simp) l (by simpa [groupLoop, h] using hl)
    · simp [groupLoop, h] at hl
      rcases hl with rfl | hl
      · exact hc
      · exact ih [c] c.top (by simp) l hl

theorem group_by_line_flatten_perm (chars : List Glyph) :
    ((group_by_line chars).flatten).Perm chars := by
  have hp : (sortChars chars).Perm chars := List.perm_insertionSort _ _
  cases h : sortChars chars with
  | nil => rw [h] at hp; simpa [group_by_line, h] using hp
  | cons c cs =>
    rw [h] at hp
    simpa [group_by_line, h, groupLoop_flatten] using hp

theorem group_by_line_ne_nil (chars : List Glyph) :
    ∀ l ∈ group_by_line chars, l ≠ [] := by
  cases h : sortChars chars with
  | nil => simp [group_by_line, h]
  | cons c cs =>
    simpa [group_by_line, h] using groupLoop_ne_nil cs [c] c.top (by simp)

theorem stripTrailingNum_length_le (s : Str) :
    (stripTrailingNum s).length ≤ s.length := by
  unfold stripTrailingNum
  dsimp only
  split
  · exact le_refl _
  split
  · exact le_refl _
  calc (((s.reverse.dropWhile Char.isWhitespace).dropWhile
            Char.isDigit).dropWhile Char.isWhitespace).reverse.length
      = (((s.reverse.dropWhile Char.isWhitespace).dropWhile
            Char.isDigit).dropWhile Char.isWhitespace).length := by
        simp
    _ ≤ ((s.reverse.dropWhile Char.isWhitespace).dropWhile
            Char.isDigit).length := (List.dropWhile_sublist _).length_le
    _ ≤ (s.reverse.dropWhile Char.isWhitespace).length :=
        (List.dropWhile_sublist _).length_le
    _ ≤ s.reverse.length := (List.dropWhile_sublist _).length_le
    _ = s.length := by simp

theorem clean_heading_length_le (cfg : Config) (s : Str) :
    (clean_heading_text cfg s).length ≤ cfg.max_heading_chars := by
  unfold clean_heading_text
  dsimp only
  split
  · next h =>
    exact le_trans (stripTrailingNum_length_le _) h.2
  · simp

/-! Claim theorems. -/

/-- Claim C7: for every glyph input, the reconstructed lines neither drop
nor duplicate a glyph (their concatenation is a permutation of the
input), the empty input yields no lines, and for duplicate-free input
the lines are pairwise disjoint. -/
theorem claim_C7 (chars : List Glyph) :
    ((group_by_line chars).flatten).Perm chars
    ∧ group_by_line ([] : List Glyph) = []
    ∧ (chars.Nodup → (group_by_line chars).Pairwise List.Disjoint) := by
  refine ⟨group_by_line_flatten_perm chars, rfl, fun hnd => ?_⟩
  have hp := group_by_line_flatten_perm chars
  have hjn : ((group_by_line chars).flatten).Nodup := hp.nodup_iff.mpr hnd
  exact (List.nodup_flatten.mp hjn).2

/-- Witness for claim C7 at a concrete two-glyph input. -/
theorem claim_C7_witness :
    ((group_by_line [bodyGlyph, hGlyph 'a' 0]).flatten).Perm
        [bodyGlyph, hGlyph 'a' 0]
    ∧ ([bodyGlyph, hGlyph 'a' 0] : List Glyph).Nodup
    ∧ (group_by_line [bodyGlyph, hGlyph 'a' 0]).Pairwise List.Disjoint :=
  ⟨(claim_C7 [bodyGlyph, hGlyph 'a' 0]).1,
   by with_unfolding_all decide,
   (claim_C7 [bodyGlyph, hGlyph 'a' 0]).2.2 (by with_unfolding_all decide)⟩

/-- Claim C3, counterexample: on the input `ab 12` the cleaner returns
`ab`, whose length 2 falls outside the default bounds, yet the result is
not the empty string — the bounds are checked before the trailing number
strip, not on the final result. -/
theorem claim_C3_counterexample :
    clean_heading_text defaultConfig ['a', 'b', ' ', '1', '2'] = ['a', 'b']
    ∧ (clean_heading_text defaultConfig ['a', 'b', ' ', '1', '2']).length
        < defaultConfig.min_heading_chars
    ∧ clean_heading_text defaultConfig ['a', 'b', ' ', '1', '2'] ≠ [] := by
  decide

/-- Claim C3 as amended: the cleaner returns the empty string whenever
the text after whitespace collapse and ordinal-prefix strip falls
outside the configured bounds (the bound check precedes the trailing
page-number strip), and the final result never exceeds the maximum
bound, though it may end up shorter than the minimum. -/
theorem claim_C3_amended (cfg : Config) (s : Str) :
    (¬ (cfg.min_heading_chars ≤ (stripOrdinal (wsCollapse s)).length ∧
          (stripOrdinal (wsCollapse s)).length ≤ cfg.max_heading_chars) →
        clean_heading_text cfg s = [])
    ∧ (clean_heading_text cfg s).length ≤ cfg.max_heading_chars := by
  refine ⟨fun h => ?_, clean_heading_length_le cfg s⟩
  unfold clean_heading_text
  dsimp only
  exact if_neg h

/-- Witness for the amended claim C3 at the one-character input `a`. -/
theorem claim_C3_amended_witness :
    clean_heading_text defaultConfig ['a'] = []
    ∧ (clean_heading_text defaultConfig ['a']).length
        ≤ defaultConfig.max_heading_chars :=
  ⟨(claim_C3_amended defaultConfig ['a']).1 (by decide),
   (claim_C3_amended defaultConfig ['a']).2⟩

/-- Claim C4, counterexample: the cleaner is not idempotent.  Cleaning
`abc 12 34` strips only the last number run, giving `abc 12`; cleaning
that again gives `abc`. -/
theorem claim_C4_counterexample :
    clean_heading_text defaultConfig
        (clean_heading_text defaultConfig
          ['a', 'b', 'c', ' ', '1', '2', ' ', '3', '4'])
      ≠ clean_heading_text defaultConfig
          ['a', 'b', 'c', ' ', '1', '2', ' ', '3', '4'] := by
  decide

/-- Claim C4 as amended: on the concrete example of the claim the
cleaner behaves as stated — `Chapter 3. Overview 12` cleans to
`Overview`, and cleaning `Overview` again returns it unchanged — but
idempotence does not hold for all inputs. -/
theorem claim_C4_amended :
    clean_heading_text defaultConfig
        ['C', 'h', 'a', 'p', 't', 'e', 'r', ' ', '3', '.', ' ',
         'O', 'v', 'e', 'r', 'v', 'i', 'e', 'w', ' ', '1', '2']
      = ['O', 'v', 'e', 'r', 'v', 'i', 'e', 'w']
    ∧ clean_heading_text defaultConfig
        ['O', 'v', 'e', 'r', 'v', 'i', 'e', 'w']
      = ['O', 'v', 'e', 'r', 'v', 'i', 'e', 'w'] := by
  decide

theorem filterMap_guard_eq {α β : Type} (p : α → Prop) [DecidablePred p]
    (f : α → β) (l : List α) :
    (l.filterMap fun x => if p x then some (f x) else none)
      = (l.filter fun x => decide (p x)).map f := by
  induction l with
  | nil => rfl
  | cons a tl ih =>
    by_cases h : p a
    · simp [List.filterMap_cons, List.filter_cons, h, ih]
    · simp [List.filterMap_cons, List.filter_cons, h, ih]

/-- Claim C10: when the embedded-outline stage succeeds in reading the
document, a toc entry is retained exactly when its level is at most 3
and its cleaned text is non-empty; retained entries are emitted in toc
order as `{level: H<level>, text: <cleaned>, page: <page>}`. -/
theorem claim_C10 (cfg : Config) (beh : DocBehavior) (d : MuDoc)
    (toc : List TocEntry) (mt : Str) (h1 : beh.openMu = Except.ok d)
    (h2 : d.toc = Except.ok toc) (h3 : d.metaTitle = Except.ok mt) :
    (extract_pymupdf_outline cfg beh).outline
      = (toc.filter fun e =>
            decide (e.1 ≤ 3 ∧ clean_heading_text cfg e.2.1 ≠ [])).map
          (fun e => tocEntryJson cfg e.1 e.2.1 e.2.2) := by
  unfold extract_pymupdf_outline pymupdf_entries
  simp only [h1, h2, h3]
  exact filterMap_guard_eq _ _ toc

/-- Witness for claim C10 at a concrete toc: the level-4 entry and the
entry cleaning below the minimum bound are dropped, the rest kept in
order. -/
theorem claim_C10_witness :
    (extract_pymupdf_outline defaultConfig behT).outline
      = (tocSample.filter fun e =>
            decide (e.1 ≤ 3 ∧ clean_heading_text defaultConfig e.2.1 ≠ [])).map
          (fun e => tocEntryJson defaultConfig e.1 e.2.1 e.2.2) :=
  claim_C10 defaultConfig behT ⟨Except.ok tocSample, Except.ok []⟩ tocSample []
    rfl rfl rfl

/-- Claim C5: the orchestrator never raises — its `try` body, modelled in
the `Except` monad, always returns `ok` — and when the pymupdf open (or
its toc and metadata accesses) and the pdfplumber open all fail, it
returns the empty result. -/
theorem claim_C5 (cfg : Config) (beh : DocBehavior) :
    extractOutlineExc cfg beh = Except.ok (extract_outline cfg beh)
    ∧ (beh.openMu = Except.error () → beh.plumber = Except.error () →
        extract_outline cfg beh = ⟨[], []⟩)
    ∧ (∀ d : MuDoc, beh.openMu = Except.ok d → d.toc = Except.error () →
        d.metaTitle = Except.error () → beh.plumber = Except.error () →
        extract_outline cfg beh = ⟨[], []⟩) := by
  refine ⟨rfl, fun h1 h2 => ?_, fun d h1 h2 h3 h4 => ?_⟩
  · unfold extract_outline extractOutlineExc extract_pymupdf_outline
      extract_font_based_outline extract_title
    simp only [h1, h2]
    rfl
  · unfold extract_outline extractOutlineExc extract_pymupdf_outline
      extract_font_based_outline extract_title
    simp only [h1, h2, h3, h4]
    rfl

/-- Witness for claim C5 at two concrete all-failing documents. -/
theorem claim_C5_witness :
    extract_outline defaultConfig behFail1 = ⟨[], []⟩
    ∧ extract_outline defaultConfig behFail2 = ⟨[], []⟩ :=
  ⟨(claim_C5 defaultConfig behFail1).2.1 rfl rfl,
   (claim_C5 defaultConfig behFail2).2.2 ⟨Except.error (), Except.error ()⟩
     rfl rfl rfl rfl⟩

theorem assignLoop_sublist (cfg : Config) (stats : Stats) (body : ℚ) :
    ∀ (l : List ℚ) (lvl : ℕ),
      List.Sublist ((assignLoop cfg stats body l lvl).map Prod.fst) l := by
  intro l
  induction l with
  | nil => intro lvl; simp [assignLoop]
  | cons s rest ih =>
    intro lvl
    by_cases h : body + cfg.font_size_threshold < s ∧
        (0.001 : ℚ) < statFreq stats s ∧ statFreq stats s < (0.1 : ℚ) ∧ lvl ≤ 3
    · simpa [assignLoop, h] using (ih (lvl + 1)).cons₂ s
    · simpa [assignLoop, h] using (ih lvl).cons s

theorem assignLoop_length (cfg : Config) (stats : Stats) (body : ℚ) :
    ∀ (l : List ℚ) (lvl : ℕ),
      (assignLoop cfg stats body l lvl).length ≤ 4 - lvl := by
  intro l
  induction l with
  | nil => intro lvl; simp [assignLoop]
  | cons s rest ih =>
    intro lvl
    by_cases h : body + cfg.font_size_threshold < s ∧
        (0.001 : ℚ) < statFreq stats s ∧ statFreq stats s < (0.1 : ℚ) ∧ lvl ≤ 3
    · have := ih (lvl + 1)
      have hl := h.2.2.2
      simp only [assignLoop, if_pos h, List.length_cons]
      omega
    · have := ih lvl
      simp only [assignLoop, if_neg h]
      omega

theorem assignLoop_mem (cfg : Config) (stats : Stats) (body : ℚ) :
    ∀ (l : List ℚ) (lvl : ℕ) (p : ℚ × Str),
      p ∈ assignLoop cfg stats body l lvl →
      body + cfg.font_size_threshold < p.1 ∧
        (0.001 : ℚ) < statFreq stats p.1 ∧ statFreq stats p.1 < (0.1 : ℚ) := by
  intro l
  induction l with
  | nil => intro lvl p hp; simp [assignLoop] at hp
  | cons s rest ih =>
    intro lvl p hp
    by_cases h : body + cfg.font_size_threshold < s ∧
        (0.001 : ℚ) < statFreq stats s ∧ statFreq stats s < (0.1 : ℚ) ∧ lvl ≤ 3
    · rw [assignLoop, if_pos h] at hp
      rcases List.mem_cons.mp hp with rfl | hp
      · exact ⟨h.1, h.2.1, h.2.2.1⟩
      · exact ih (lvl + 1) p hp
    · rw [assignLoop, if_neg h] at hp
      exact ih lvl p hp

theorem assignLoop_labels (cfg : Config) (stats : Stats) (body : ℚ) :
    ∀ (l : List ℚ) (lvl : ℕ),
      (assignLoop cfg stats body l lvl).map Prod.snd
        = (List.range (assignLoop cfg stats body l lvl).length).map
            (fun i => hLabel (lvl + i)) := by
  intro l
  induction l with
  | nil => intro lvl; simp [assignLoop]
  | cons s rest ih =>
    intro lvl
    by_cases h : body + cfg.font_size_threshold < s ∧
        (0.001 : ℚ) < statFreq stats s ∧ statFreq stats s < (0.1 : ℚ) ∧ lvl ≤ 3
    · simp only [assignLoop, if_pos h, List.map_cons, List.length_cons,
        List.range_succ_eq_map, List.map_map, ih (lvl + 1)]
      refine congrArg₂ _ (by simp) ?_
      refine List.map_congr_left fun i _ => ?_
      simp [Function.comp, Nat.add_comm, Nat.add_assoc, Nat.add_left_comm]
    · simp only [assignLoop, if_neg h, ih lvl]

theorem sortDesc_pairwise_gt (l : List ℚ) (h : l.Nodup) :
    (sortDesc l).Pairwise (· > ·) := by
  have hs : (sortDesc l).Sorted (· ≥ ·) := List.sorted_insertionSort _ l
  have hn : (sortDesc l).Nodup :=
    ((List.perm_insertionSort (· ≥ ·) l).nodup_iff).mpr h
  exact (hs.and hn).imp fun hx => lt_of_le_of_ne hx.1 (Ne.symm hx.2)

/-- Claim C6: the classifier assigns at most 3 levels; every assigned
size exceeds the body size by more than the threshold (2.0 by default)
and has frequency strictly between 0.001 and 0.1; and the assignments
run H1, H2, H3 in strictly descending size order. -/
theorem claim_C6 (stats : Stats) (hnd : (stats.map Prod.fst).Nodup) :
    (identify_heading_fonts defaultConfig stats).length ≤ 3
    ∧ (∀ p ∈ identify_heading_fonts defaultConfig stats,
        body_size stats + defaultConfig.font_size_threshold < p.1
        ∧ (0.001 : ℚ) < statFreq stats p.1 ∧ statFreq stats p.1 < (0.1 : ℚ))
    ∧ ((identify_heading_fonts defaultConfig stats).map Prod.fst).Pairwise (· > ·)
    ∧ (identify_heading_fonts defaultConfig stats).map Prod.snd
      = (List.range (identify_heading_fonts defaultConfig stats).length).map
          (fun i => hLabel (1 + i)) := by
  cases h : stats.map Prod.fst with
  | nil =>
    simp [identify_heading_fonts, h]
  | cons k ks =>
    have hb : body_size stats = pyMaxKeyBy (statFreq stats) k ks := by
      unfold body_size; rw [h]
    have hid : identify_heading_fonts defaultConfig stats
        = assignLoop defaultConfig stats (pyMaxKeyBy (statFreq stats) k ks)
            (sortDesc (k :: ks)) 1 := by
      unfold identify_heading_fonts; rw [h]
    rw [hid, hb]
    refine ⟨assignLoop_length _ _ _ _ 1, fun p hp => assignLoop_mem _ _ _ _ 1 p hp,
      ?_, assignLoop_labels _ _ _ _ 1⟩
    exact (sortDesc_pairwise_gt (k :: ks) (h ▸ hnd)).sublist
      (assignLoop_sublist _ _ _ _ 1)

/-- Witness for claim C6 at a concrete statistics dict with body size 10
and qualifying sizes 16 and 14. -/
theorem claim_C6_witness :
    ((stats0.map Prod.fst).Nodup)
    ∧ (identify_heading_fonts defaultConfig stats0).length ≤ 3
    ∧ ((identify_heading_fonts defaultConfig stats0).map Prod.fst).Pairwise
        (· > ·) :=
  ⟨by with_unfolding_all decide,
   (claim_C6 stats0 (by with_unfolding_all decide)).1,
   (claim_C6 stats0 (by with_unfolding_all decide)).2.2.1⟩

theorem statsUpdate_count_sum (k : ℚ) (f : FontStat → FontStat)
    (hf : ∀ v, (f v).count = v.count + 1) :
    ∀ st : Stats,
      ((statsUpdate k f st).map (fun p => p.2.count)).sum
        = (st.map (fun p => p.2.count)).sum + 1 := by
  intro st
  induction st with
  | nil =>
    simp only [statsUpdate, List.map_cons, List.map_nil, List.sum_cons,
      List.sum_nil, hf FontStat.init]
    rfl
  | cons a tl ih =>
    obtain ⟨k', v⟩ := a
    by_cases h : k' = k
    · simp only [statsUpdate, if_pos h, List.map_cons, List.sum_cons, hf v]
      omega
    · simp only [statsUpdate, if_neg h, List.map_cons, List.sum_cons, ih]
      omega

theorem processChar_count_sum (st : Stats) (c : Glyph) :
    ((processChar st c).map (fun p => p.2.count)).sum
      = (st.map (fun p => p.2.count)).sum + 1 :=
  statsUpdate_count_sum _ _ (fun _ => rfl) st

theorem chars_fold_count (chars : List Glyph) :
    ∀ acc : Stats × ℕ, (acc.1.map (fun p => p.2.count)).sum = acc.2 →
      (((chars.foldl (fun a c => (processChar a.1 c, a.2 + 1)) acc).1.map
          (fun p => p.2.count)).sum
        = (chars.foldl (fun a c => (processChar a.1 c, a.2 + 1)) acc).2) := by
  induction chars with
  | nil => intro acc h; simpa using h
  | cons c cs ih =>
    intro acc h
    simp only [List.foldl_cons]
    exact ih (processChar acc.1 c, acc.2 + 1)
      (by simp [processChar_count_sum, h])

theorem statsRaw_count (pages : List Page) :
    ((statsRaw pages).1.map (fun p => p.2.count)).sum = (statsRaw pages).2 := by
  unfold statsRaw
  generalize hinit : (([], 0) : Stats × ℕ) = init
  have h0 : (init.1.map (fun p => p.2.count)).sum = init.2 := by
    rw [← hinit]; rfl
  clear hinit
  induction pages generalizing init with
  | nil => simpa using h0
  | cons p ps ih =>
    simp only [List.foldl_cons]
    exact ih _ (chars_fold_count p.chars init h0)

theorem map_div_sum (T : ℚ) :
    ∀ st : Stats,
      (st.map (fun p => ((p.2.count : ℚ) / T))).sum
        = (st.map (fun p => ((p.2.count : ℚ)))).sum / T := by
  intro st
  induction st with
  | nil => simp
  | cons a tl ih =>
    simp only [List.map_cons, List.sum_cons, ih]
    rw [add_div]

theorem map_cast_count_sum :
    ∀ st : Stats,
      (st.map (fun p => ((p.2.count : ℚ)))).sum
        = (((st.map fun p => p.2.count).sum : ℕ) : ℚ) := by
  intro st
  induction st with
  | nil => simp
  | cons a tl ih => simp [ih]

/-- Claim C8: the aggregator sets every frequency to count over the
total glyph count, so the frequencies sum to exactly 1 when the total is
positive, and every frequency is 0 when the total is 0. -/
theorem claim_C8 (pages : List Page) :
    (0 < total_glyphs pages →
      ((analyze_font_statistics pages).map (fun p => p.2.frequency)).sum = 1)
    ∧ (total_glyphs pages = 0 →
      ∀ p ∈ analyze_font_statistics pages, p.2.frequency = 0)
    ∧ (0 < total_glyphs pages →
      ∀ p ∈ analyze_font_statistics pages,
        p.2.frequency = (p.2.count : ℚ) / (total_glyphs pages : ℚ)) := by
  have hcount := statsRaw_count pages
  refine ⟨fun hT => ?_, fun hT p hp => ?_, fun hT p hp => ?_⟩
  · have hne : (statsRaw pages).2 ≠ 0 := by
      unfold total_glyphs at hT; omega
    unfold analyze_font_statistics total_glyphs at *
    simp only [hne, ne_eq, not_false_eq_true, if_true, List.map_map]
    rw [show ((fun p : ℚ × FontStat => p.2.frequency) ∘
        (fun p : ℚ × FontStat =>
          (p.1, { p.2 with
                  frequency := (p.2.count : ℚ) / ((statsRaw pages).2 : ℚ) })))
        = (fun p : ℚ × FontStat =>
            ((p.2.count : ℚ) / ((statsRaw pages).2 : ℚ))) from rfl]
    rw [map_div_sum, map_cast_count_sum, hcount]
    exact div_self (by exact_mod_cast hne)
  · unfold total_glyphs at hT
    unfold analyze_font_statistics at hp
    rcases List.mem_map.mp hp with ⟨q, hq, rfl⟩
    simp [hT]
  · have hne : (statsRaw pages).2 ≠ 0 := by
      unfold total_glyphs at hT; omega
    unfold total_glyphs
    unfold analyze_font_statistics at hp
    rcases List.mem_map.mp hp with ⟨q, hq, rfl⟩
    simp [hne]

/-- Witness for claim C8 at a concrete two-glyph document. -/
theorem claim_C8_witness :
    0 < total_glyphs pagesW
    ∧ ((analyze_font_statistics pagesW).map (fun p => p.2.frequency)).sum = 1 :=
  ⟨by with_unfolding_all decide, (claim_C8 pagesW).1 (by with_unfolding_all decide)⟩

theorem mem_extract_page_headings (cfg : Config) (hf : List (ℚ × Str))
    (page : Page) (n : ℕ) (e : Entry)
    (he : e ∈ extract_page_headings cfg hf page n) :
    ∃ line lbl,
      e = [(FKey.level, JVal.str lbl),
           (FKey.text, JVal.str (clean_heading_text cfg (lineText line))),
           (FKey.page, JVal.int (n : ℤ)),
           (FKey.y_position, JVal.rat (minTop line)),
           (FKey.font_size,
            JVal.rat (primarySize (line.map (fun c => round1 c.size))))] := by
  rcases List.mem_filterMap.mp he with ⟨line, _, hsome⟩
  dsimp only at hsome
  split at hsome
  · split at hsome
    · next lbl _ =>
      exact ⟨line, lbl, (Option.some.inj hsome).symm⟩
    · simp at hsome
  · simp at hsome

theorem mem_pymupdf_entries (cfg : Config) (toc : List TocEntry) (e : Entry)
    (he : e ∈ pymupdf_entries cfg toc) :
    ∃ t : TocEntry, t ∈ toc ∧ e = tocEntryJson cfg t.1 t.2.1 t.2.2 := by
  rcases List.mem_filterMap.mp he with ⟨t, ht, hsome⟩
  split at hsome
  · exact ⟨t, ht, (Option.some.inj hsome).symm⟩
  · simp at hsome

theorem mem_pymupdf_outline (cfg : Config) (beh : DocBehavior) (e : Entry)
    (he : e ∈ (extract_pymupdf_outline cfg beh).outline) :
    ∃ toc, e ∈ pymupdf_entries cfg toc := by
  unfold extract_pymupdf_outline at he
  rcases h1 : beh.openMu with _ | d <;> simp only [h1] at he
  · simp at he
  rcases h2 : d.toc with _ | toc <;> simp only [h2] at he
  · simp at he
  rcases h3 : d.metaTitle with _ | mt <;> simp only [h3] at he
  · simp at he
  exact ⟨toc, he⟩

theorem mem_font_outline (cfg : Config) (beh : DocBehavior) (e : Entry)
    (he : e ∈ (extract_font_based_outline cfg beh).outline) :
    ∃ line lbl n,
      e = [(FKey.level, JVal.str lbl),
           (FKey.text, JVal.str (clean_heading_text cfg (lineText line))),
           (FKey.page, JVal.int (n : ℤ)),
           (FKey.y_position, JVal.rat (minTop line)),
           (FKey.font_size,
            JVal.rat (primarySize (line.map (fun c => round1 c.size))))] := by
  unfold extract_font_based_outline at he
  rcases h1 : beh.plumber with _ | pages <;> simp only [h1] at he
  · simp at he
  have he2 := (List.perm_insertionSort entryLE _).mem_iff.mp he
  rcases List.mem_flatten.mp he2 with ⟨sub, hsub, hesub⟩
  rcases List.mem_map.mp hsub with ⟨q, _, rfl⟩
  rcases mem_extract_page_headings cfg _ q.2 (q.1 + 1) e hesub with ⟨line, lbl, rfl⟩
  refine ⟨line, lbl, q.1 + 1, ?_⟩
  norm_cast

theorem extract_outline_outline_cases (cfg : Config) (beh : DocBehavior) :
    (extract_outline cfg beh).outline = (extract_pymupdf_outline cfg beh).outline
    ∨ (extract_outline cfg beh).outline
        = (extract_font_based_outline cfg beh).outline := by
  have hdef : extract_outline cfg beh =
      (let o1 := extract_pymupdf_outline cfg beh
       let o2 := if o1.outline.isEmpty then extract_font_based_outline cfg beh
                 else o1
       if o2.title.isEmpty then { o2 with title := extract_title cfg beh }
       else o2) := rfl
  rw [hdef]
  dsimp only
  by_cases h1 : (extract_pymupdf_outline cfg beh).outline.isEmpty
  · right; simp only [h1, if_true]; split <;> rfl
  · left
    simp only [h1, Bool.false_eq_true, if_false]
    split <;> rfl

/-- Claim C1, counterexample: on a concrete document processed through
the font-based pipeline, the serialized outline entry carries the
`y_position` and `font_size` fields in addition to `level`, `text`,
`page` — the internal fields are never stripped before `json.dump`. -/
theorem claim_C1_counterexample :
    (extract_outline defaultConfig behC).outline.map entryKeys
      = [[FKey.level, FKey.text, FKey.page, FKey.y_position, FKey.font_size]]
    ∧ ([FKey.level, FKey.text, FKey.page, FKey.y_position, FKey.font_size]
        ≠ [FKey.level, FKey.text, FKey.page]) := by
  with_unfolding_all decide

/-- Claim C1 as amended: every outline entry of the font-based pipeline
carries exactly the five fields level, text, page, y_position,
font_size (in that order), every embedded-outline entry exactly the
three fields level, text, page, and every serialized entry one of these
two shapes. -/
theorem claim_C1_amended (cfg : Config) (beh : DocBehavior) (e : Entry) :
    (e ∈ (extract_font_based_outline cfg beh).outline →
      entryKeys e
        = [FKey.level, FKey.text, FKey.page, FKey.y_position, FKey.font_size])
    ∧ (e ∈ (extract_pymupdf_outline cfg beh).outline →
      entryKeys e = [FKey.level, FKey.text, FKey.page])
    ∧ (e ∈ (extract_outline cfg beh).outline →
      entryKeys e
          = [FKey.level, FKey.text, FKey.page, FKey.y_position, FKey.font_size]
      ∨ entryKeys e = [FKey.level, FKey.text, FKey.page]) := by
  have hfont : e ∈ (extract_font_based_outline cfg beh).outline →
      entryKeys e
        = [FKey.level, FKey.text, FKey.page, FKey.y_position, FKey.font_size] := by
    intro he
    rcases mem_font_outline cfg beh e he with ⟨line, lbl, n, rfl⟩
    rfl
  have hpy : e ∈ (extract_pymupdf_outline cfg beh).outline →
      entryKeys e = [FKey.level, FKey.text, FKey.page] := by
    intro he
    rcases mem_pymupdf_outline cfg beh e he with ⟨toc, he2⟩
    rcases mem_pymupdf_entries cfg toc e he2 with ⟨t, _, rfl⟩
    rfl
  refine ⟨hfont, hpy, fun he => ?_⟩
  rcases extract_outline_outline_cases cfg beh with h | h
  · exact Or.inr (hpy (h ▸ he))
  · exact Or.inl (hfont (h ▸ he))

/-- Witness for the amended claim C1 at the concrete entry emitted for
`behC`. -/
theorem claim_C1_amended_witness :
    entryKeys
        [(FKey.level, JVal.str ['H', '1']),
         (FKey.text, JVal.str ['a', 'b']),
         (FKey.page, JVal.int 1),
         (FKey.y_position, JVal.rat 0),
         (FKey.font_size, JVal.rat 16)]
      = [FKey.level, FKey.text, FKey.page, FKey.y_position, FKey.font_size] :=
  (claim_C1_amended defaultConfig behC
      [(FKey.level, JVal.str ['H', '1']),
       (FKey.text, JVal.str ['a', 'b']),
       (FKey.page, JVal.int 1),
       (FKey.y_position, JVal.rat 0),
       (FKey.font_size, JVal.rat 16)]).1
    (by with_unfolding_all decide)

/-- Claim C2, counterexample: the same concrete document emits an
outline entry whose cleaned text `ab` has length 2, strictly below the
default minimum bound of 3 — the line is not dropped when the cleaned
text falls outside the bounds. -/
theorem claim_C2_counterexample :
    (extract_outline defaultConfig behC).outline.map
        (fun e => e.lookup FKey.text)
      = [some (JVal.str ['a', 'b'])]
    ∧ ¬ (defaultConfig.min_heading_chars ≤ (['a', 'b'] : Str).length) := by
  with_unfolding_all decide

/-- Claim C2 as amended: every text in a serialized outline respects the
maximum length bound after cleaning (lines are filtered on the raw
stripped text), but the cleaned text may fall below the minimum bound
and still be emitted. -/
theorem claim_C2_amended (cfg : Config) (beh : DocBehavior) (e : Entry)
    (t : Str) (he : e ∈ (extract_outline cfg beh).outline)
    (ht : e.lookup FKey.text = some (JVal.str t)) :
    t.length ≤ cfg.max_heading_chars := by
  rcases extract_outline_outline_cases cfg beh with h | h
  · rw [h] at he
    rcases mem_pymupdf_outline cfg beh e he with ⟨toc, he2⟩
    rcases mem_pymupdf_entries cfg toc e he2 with ⟨tc, _, rfl⟩
    have hl : List.lookup FKey.text (tocEntryJson cfg tc.1 tc.2.1 tc.2.2)
        = some (JVal.str (clean_heading_text cfg tc.2.1)) := rfl
    rw [hl] at ht
    simp only [Option.some.injEq, JVal.str.injEq] at ht
    exact ht ▸ clean_heading_length_le cfg tc.2.1
  · rw [h] at he
    rcases mem_font_outline cfg beh e he with ⟨line, lbl, n, rfl⟩
    have hl : List.lookup FKey.text
        [(FKey.level, JVal.str lbl),
         (FKey.text, JVal.str (clean_heading_text cfg (lineText line))),
         (FKey.page, JVal.int (n : ℤ)),
         (FKey.y_position, JVal.rat (minTop line)),
         (FKey.font_size,
          JVal.rat (primarySize (line.map (fun c => round1 c.size))))]
        = some (JVal.str (clean_heading_text cfg (lineText line))) := rfl
    rw [hl] at ht
    simp only [Option.some.injEq, JVal.str.injEq] at ht
    exact ht ▸ clean_heading_length_le cfg (lineText line)

/-- Witness for the amended claim C2 at the concrete entry emitted for
`behC`. -/
theorem claim_C2_amended_witness :
    (['a', 'b'] : Str).length ≤ defaultConfig.max_heading_chars :=
  claim_C2_amended defaultConfig behC
    [(FKey.level, JVal.str ['H', '1']),
     (FKey.text, JVal.str ['a', 'b']),
     (FKey.page, JVal.int 1),
     (FKey.y_position, JVal.rat 0),
     (FKey.font_size, JVal.rat 16)]
    ['a', 'b'] (by with_unfolding_all decide) rfl

theorem buildCandidates_ok (cfg : Config) (h w : ℚ) (hh : h ≠ 0) (hw : w ≠ 0) :
    ∀ lines : List (List Glyph), (∀ l ∈ lines, l ≠ []) →
      buildCandidates cfg h w lines
        = Except.ok (specCandidates cfg h w lines) := by
  intro lines
  induction lines with
  | nil => intro _; rfl
  | cons line rest ih =>
    intro hne
    have hline : line ≠ [] := hne line (List.mem_cons_self _ _)
    have hlen : (line.length : ℚ) ≠ 0 := by
      have : line.length ≠ 0 := fun hc => hline (List.length_eq_zero.mp hc)
      exact_mod_cast this
    have hw2 : w / 2 ≠ 0 := div_ne_zero hw two_ne_zero
    have hrest := ih fun l hl => hne l (List.mem_cons_of_mem _ hl)
    unfold buildCandidates specCandidates
    dsimp only
    by_cases hb : cfg.min_heading_chars ≤ (lineText line).length ∧
        (lineText line).length ≤ cfg.max_heading_chars
    · simp only [if_pos hb, safeDiv, if_neg hlen, if_neg hh, if_neg hw2,
        List.filterMap_cons, bind, Except.bind]
      unfold specCandidates at hrest
      rw [hrest]
      simp only [Except.ok.injEq, List.cons.injEq, Prod.mk.injEq]
      exact ⟨⟨trivial, by ring⟩, trivial⟩
    · simp only [if_neg hb, List.filterMap_cons]
      unfold specCandidates at hrest
      rw [hrest]

theorem buildCandidates_err (cfg : Config) (h w : ℚ) (hz : h = 0 ∨ w = 0) :
    ∀ lines : List (List Glyph),
      buildCandidates cfg h w lines = Except.error ()
      ∨ (buildCandidates cfg h w lines = Except.ok []
          ∧ specCandidates cfg h w lines = []) := by
  intro lines
  induction lines with
  | nil => exact Or.inr ⟨rfl, rfl⟩
  | cons line rest ih =>
    unfold buildCandidates specCandidates
    dsimp only
    by_cases hb : cfg.min_heading_chars ≤ (lineText line).length ∧
        (lineText line).length ≤ cfg.max_heading_chars
    · left
      simp only [if_pos hb]
      by_cases hlen : (line.length : ℚ) = 0
      · simp [safeDiv, hlen, bind, Except.bind]
      · rcases hz with hz | hz
        · simp [safeDiv, hlen, hz, bind, Except.bind]
        · have hw2 : w / 2 = 0 := by rw [hz]; norm_num
          by_cases hh : h = 0
          · simp [safeDiv, hlen, hh, bind, Except.bind]
          · simp [safeDiv, hlen, hh, hw2, bind, Except.bind]
    · simp only [if_neg hb, List.filterMap_cons]
      rcases ih with hiherr | ⟨hok, hspec⟩
      · exact Or.inl hiherr
      · right
        refine ⟨hok, ?_⟩
        unfold specCandidates at hspec
        simpa using hspec

/-- Claim C9: the title scorer considers exactly the first 10
reconstructed lines passing the length filter, returns the cleaned text
of the candidate of maximum score under the weighted formula, returns
the empty string when no candidate qualifies, and degrades every
internal failure (a zero page dimension) to the empty string instead of
raising. -/
theorem claim_C9 (cfg : Config) (page : Page) :
    extract_title_from_page cfg page = titleFromPageSpec cfg page := by
  unfold extract_title_from_page titleFromPageExc titleFromPageSpec
  dsimp only
  by_cases hz : page.height = 0 ∨ page.width = 0
  · rcases buildCandidates_err cfg page.height page.width hz
        ((group_by_line page.chars).take 10) with herr | ⟨hok, hspec⟩
    · simp [herr, hz, bind, Except.bind]
    · simp [hok, hspec, hz, bind, Except.bind]
  · push_neg at hz
    have hlines : ∀ l ∈ (group_by_line page.chars).take 10, l ≠ [] :=
      fun l hl => group_by_line_ne_nil page.chars l (List.mem_of_mem_take hl)
    rw [buildCandidates_ok cfg page.height page.width hz.1 hz.2 _ hlines]
    simp only [hz.1, hz.2, or_self, if_false, bind, Except.bind]
